import Mathlib

/-!
Verification of the knowledge-graph-to-D3 converter (`convert_to_d3.py`).

The source is a single-shot batch transform: it decodes a content object
holding `entities` and `relations` arrays, derives a sorted group table and
a relation-type tally, extracts node and link records, optionally validates
referential integrity, and assembles an output graph with metadata.

Shallow embedding conventions:
  - a Python dict record with optional keys becomes a structure with
    `Option` fields; `d.get(k, default)` becomes `Option.getD`, and a bare
    `d[k]` subscript (which raises `KeyError` when absent) makes the
    enclosing extraction return `none`;
  - a Python `set` used only for membership is modelled by membership in a
    list; a `set` that the code converts with `list(...)` and then
    serializes (the metadata `entityTypes` / `relationTypes` fields) is
    modelled by an explicit enumeration function `setOrder`, constrained by
    `ValidSetOrder` to list exactly the distinct elements: CPython's set
    iteration order for strings depends on the per-process hash seed, so it
    is a run-dependent parameter, not a function of the input;
  - a Python dict used as an insertion-ordered map (the relation tally)
    becomes an association list: updating an existing key rewrites its
    entry in place, a new key is appended at the end.
-/

namespace KG

/-- One record of the `entities` array.  Every key the code touches is
optional: `type` and `entityType` are read with `.get`, `observations`
with `.get(..., [])`, while `name` is a bare subscript. -/
structure Entity where
  type : Option String
  name : Option String
  entityType : Option String
  observations : Option (List String)
deriving DecidableEq, Repr

/-- One record of the `relations` array.  `type` and `relationType` are
read with `.get` in some places; `from`, `to` and `relationType` are bare
subscripts inside `extract_links`. -/
structure Relation where
  type : Option String
  from_ : Option String
  to_ : Option String
  relationType : Option String
deriving DecidableEq, Repr

/-- A D3 node as built by `extract_nodes`. -/
structure Node where
  id : String
  type : String
  observations : List String
  group : Nat
deriving DecidableEq, Repr

/-- A D3 link as built by `extract_links`. -/
structure Link where
  source : String
  target : String
  type : String
  value : Nat
deriving DecidableEq, Repr

/-- The `entityType` label of a record, defaulting to "Unknown"
(`entity.get("entityType", "Unknown")`). -/
def entityKey (e : Entity) : String :=
  e.entityType.getD "Unknown"

/-- Source `extract_groups`: collect the set of `entityType` labels of all
records (missing entityType contributes "Unknown") and return them sorted
(`sorted(list(groups))`).  The set is modelled as `dedup` of the label
list; the final sort makes the set's internal order irrelevant. -/
def extract_groups (entities : List Entity) : List String :=
  List.insertionSort (fun a b => a ≤ b) ((entities.map entityKey).dedup)

/-- Source `_get_group_index`: the position of `entity_type` in `groups`
(`list(groups).index(...)`) when present, else the defensive fallback 0. -/
def _get_group_index (entity_type : String) (groups : List String) : Nat :=
  if entity_type ∈ groups then groups.indexOf entity_type else 0

/-- The `relationType` label of a record, defaulting to "Unknown"
(`relation.get("relationType", "Unknown")`). -/
def relKey (r : Relation) : String :=
  r.relationType.getD "Unknown"

/-- Lookup in the tally association list, defaulting to 0
(`relation_types.get(rel_type, 0)`). -/
def tallyGet (t : List (String × Nat)) (k : String) : Nat :=
  match t.find? (fun p => p.1 == k) with
  | some p => p.2
  | none => 0

/-- Rewrite the entry at key `k` to value `v`, leaving other entries
untouched (the in-place part of a dict update). -/
def tallyBump (k : String) (v : Nat) (p : String × Nat) : String × Nat :=
  if p.1 == k then (p.1, v) else p

/-- One `relation_types.update(\x7bk: v\x7d)` step on an insertion-ordered
dict modelled as an association list: an existing key keeps its position
and gets the new value, a new key is appended at the end. -/
def tallyInsert (t : List (String × Nat)) (k : String) (v : Nat) : List (String × Nat) :=
  if t.any (fun p => p.1 == k) then t.map (tallyBump k v)
  else t ++ [(k, v)]

/-- Source `extract_relation_types`: fold over all relation records,
incrementing the counter of each record's `relationType` label (missing
label counts under "Unknown"); no record is skipped. -/
def extract_relation_types (relations : List Relation) : List (String × Nat) :=
  relations.foldl (fun t r => tallyInsert t (relKey r) (tallyGet t (relKey r) + 1)) []

/-- Source `_get_relation_strength`: `relation_types.get(relation_type, 0)`. -/
def _get_relation_strength (relation_type : String) (relation_types : List (String × Nat)) : Nat :=
  tallyGet relation_types relation_type

/-- The sum of all counter values of a tally. -/
def valueSum (t : List (String × Nat)) : Nat :=
  (t.map Prod.snd).sum

/-- The keys of a tally are pairwise distinct (dict-key uniqueness). -/
def KeysNodup (t : List (String × Nat)) : Prop :=
  (t.map Prod.fst).Nodup

/-- Source `extract_nodes`: skip records whose `type` discriminator is not
"entity"; for the rest require `name` (bare subscript, `KeyError` when
absent, modelled as `none`) and build the node with defaulted
`entityType`/`observations` and the group index from `existing_groups`. -/
def extract_nodes : List Entity → List String → Option (List Node)
  | [], _ => some []
  | e :: rest, existing_groups =>
    if e.type == some "entity" then
      match e.name with
      | none => none
      | some n =>
        match extract_nodes rest existing_groups with
        | none => none
        | some ns =>
          some ({ id := n, type := entityKey e,
                  observations := e.observations.getD [],
                  group := _get_group_index (entityKey e) existing_groups } :: ns)
    else extract_nodes rest existing_groups

/-- Source `extract_links`: skip records whose `type` discriminator is not
"relation"; for the rest require `from`, `to` and `relationType` (bare
subscripts) and build the link with the strength looked up in
`relation_types`. -/
def extract_links : List Relation → List (String × Nat) → Option (List Link)
  | [], _ => some []
  | r :: rest, relation_types =>
    if r.type == some "relation" then
      match r.from_, r.to_, r.relationType with
      | some s, some t, some ty =>
        match extract_links rest relation_types with
        | none => none
        | some ls =>
          some ({ source := s, target := t, type := ty,
                  value := _get_relation_strength ty relation_types } :: ls)
      | _, _, _ => none
    else extract_links rest relation_types

/-- Add a string to the collected missing-id set (`missing_nodes.add(s)`),
modelled as append-if-absent so only membership and emptiness matter. -/
def insertAbsent (m : List String) (s : String) : List String :=
  if s ∈ m then m else m ++ [s]

/-- The missing-id set collected by `validate_graph_integrity`: the loop
visits every link and adds its `source` and `target` whenever they are not
among the node ids. -/
def missing_nodes (nodes : List Node) (links : List Link) : List String :=
  let node_ids := nodes.map Node.id
  links.foldl
    (fun m l =>
      let m1 := if l.source ∈ node_ids then m else insertAbsent m l.source
      if l.target ∈ node_ids then m1 else insertAbsent m1 l.target)
    []

/-- Source `validate_graph_integrity`: true exactly when the collected
missing-id set is empty. -/
def validate_graph_integrity (nodes : List Node) (links : List Link) : Bool :=
  (missing_nodes nodes links).isEmpty

/-- The decoded content object: the code checks the presence of the
`entities` and `relations` keys before using them. -/
structure Content where
  entities : Option (List Entity)
  relations : Option (List Relation)
deriving DecidableEq, Repr

/-- Output metadata, as assembled by `convert_to_d3`. -/
structure Metadata where
  nodeCount : Nat
  linkCount : Nat
  entityTypes : List String
  relationTypes : List String
  generatedAt : String
  source : String
deriving DecidableEq, Repr

/-- The assembled `d3_graph` object. -/
structure D3Graph where
  nodes : List Node
  links : List Link
  metadata : Metadata
deriving DecidableEq, Repr

/-- Failure modes of the core pipeline: the missing-array `ValueError`s,
the `KeyError` raised inside extraction, and the integrity `ValueError`. -/
inductive ConvError where
  | missingEntities
  | missingRelations
  | keyError
  | integrity
deriving DecidableEq, Repr

/-- An enumeration function standing for CPython's `list(set(xs))`: it must
list exactly the distinct elements of `xs`, in an order the language does
not specify (for strings it varies with the per-process hash seed). -/
def ValidSetOrder (o : List String → List String) : Prop :=
  ∀ xs : List String, (o xs).Nodup ∧ ∀ a : String, a ∈ o xs ↔ a ∈ xs

/-- One concrete valid enumeration order: first occurrences. -/
def setOrd1 : List String → List String :=
  fun xs => xs.dedup

/-- Another concrete valid enumeration order: first occurrences reversed
(a different but equally legitimate set iteration order). -/
def setOrd2 : List String → List String :=
  fun xs => xs.dedup.reverse

/-- Core of `convert_to_d3` (lines 244-277), between decoding and
serialization: check the two required keys, compute the group table and
relation tally over the full arrays, extract nodes then links, optionally
validate, and assemble the output object.  `setOrder` supplies the
`list(set(...))` enumeration used for the metadata type lists; `input_file`
is echoed into `metadata.source`; `generatedAt` is the constant the code
writes. -/
def convert_pipeline (setOrder : List String → List String) (input_file : String)
    (content : Content) (validate : Bool) : Except ConvError D3Graph :=
  match content.entities with
  | none => .error .missingEntities
  | some es =>
    match content.relations with
    | none => .error .missingRelations
    | some rs =>
      match extract_nodes es (extract_groups es) with
      | none => .error .keyError
      | some nodes =>
        match extract_links rs (extract_relation_types rs) with
        | none => .error .keyError
        | some links =>
          if validate && !(validate_graph_integrity nodes links) then
            .error .integrity
          else
            .ok { nodes := nodes, links := links,
                  metadata := { nodeCount := nodes.length,
                                linkCount := links.length,
                                entityTypes := setOrder (nodes.map Node.type),
                                relationTypes := setOrder (links.map Link.type),
                                generatedAt := "2025-01-14",
                                source := input_file } }

/-- Decidable equality of pipeline results, for evaluating the pipeline at
concrete inputs. -/
instance : DecidableEq (Except ConvError D3Graph) := fun a b =>
  match a, b with
  | .error x, .error y =>
    if h : x = y then isTrue (by rw [h]) else isFalse (fun c => h (by cases c; rfl))
  | .ok x, .ok y =>
    if h : x = y then isTrue (by rw [h]) else isFalse (fun c => h (by cases c; rfl))
  | .error _, .ok _ => isFalse (fun c => by cases c)
  | .ok _, .error _ => isFalse (fun c => by cases c)

end KG

namespace KG

theorem extract_groups_sorted (E : List Entity) :
    (extract_groups E).Sorted (fun a b : String => a ≤ b) :=
  List.sorted_insertionSort _ _

theorem extract_groups_perm_dedup (E : List Entity) :
    List.Perm (extract_groups E) ((E.map entityKey).dedup) :=
  List.perm_insertionSort _ _

theorem extract_groups_nodup (E : List Entity) :
    (extract_groups E).Nodup :=
  (extract_groups_perm_dedup E).nodup_iff.mpr (List.nodup_dedup _)

theorem extract_groups_perm_congr {E E' : List Entity} (h : List.Perm E E') :
    extract_groups E = extract_groups E' := by
  apply List.eq_of_perm_of_sorted _ (extract_groups_sorted E) (extract_groups_sorted E')
  exact ((extract_groups_perm_dedup E).trans ((h.map entityKey).dedup)).trans
    (extract_groups_perm_dedup E').symm

theorem mem_extract_groups (E : List Entity) (s : String) :
    s ∈ extract_groups E ↔ ∃ e ∈ E, entityKey e = s := by
  rw [(extract_groups_perm_dedup E).mem_iff, List.mem_dedup, List.mem_map]

/-- C1: for every entity sequence, `extract_groups` returns a
lexicographically sorted, duplicate-free list of entityType labels
(missing entityType contributing "Unknown"), and the result is invariant
under permutation of the input. -/
theorem C1_groups_sorted_nodup_perm_invariant (E E' : List Entity) (h : List.Perm E E') :
    (extract_groups E).Sorted (fun a b : String => a ≤ b) ∧
    (extract_groups E).Nodup ∧
    extract_groups E = extract_groups E' :=
  ⟨extract_groups_sorted E, extract_groups_nodup E, extract_groups_perm_congr h⟩

/-- Witness for C1 at a concrete permuted pair of entity lists. -/
theorem tallyGet_of_find?_none {t : List (String × Nat)} {k : String}
    (h : t.find? (fun p => p.1 == k) = none) : tallyGet t k = 0 := by
  unfold tallyGet
  rw [h]

theorem tallyGet_of_find?_some {t : List (String × Nat)} {k : String} {q : String × Nat}
    (h : t.find? (fun p => p.1 == k) = some q) : tallyGet t k = q.2 := by
  unfold tallyGet
  rw [h]

theorem tallyGet_eq_zero {t : List (String × Nat)} {k : String}
    (h : t.any (fun p => p.1 == k) = false) : tallyGet t k = 0 := by
  apply tallyGet_of_find?_none
  rw [List.find?_eq_none]
  intro p hp
  simpa using List.any_eq_false.mp h p hp

theorem fst_tallyBump (k : String) (v : Nat) (p : String × Nat) :
    (tallyBump k v p).1 = p.1 := by
  unfold tallyBump
  split <;> rfl

theorem comp_beq_tallyBump (k k' : String) (v : Nat) :
    ((fun p : String × Nat => p.1 == k) ∘ tallyBump k' v) = fun p : String × Nat => p.1 == k := by
  funext p
  simp [Function.comp, fst_tallyBump]

theorem get_tallyInsert (t : List (String × Nat)) (k' k : String) :
    tallyGet (tallyInsert t k' (tallyGet t k' + 1)) k
      = tallyGet t k + (if k = k' then 1 else 0) := by
  by_cases hp : t.any (fun p => p.1 == k') = true
  · simp only [tallyInsert, hp, if_true]
    cases hfind : t.find? (fun p => p.1 == k) with
    | none =>
      have hLHS : (t.map (tallyBump k' (tallyGet t k' + 1))).find? (fun p => p.1 == k) = none := by
        rw [List.find?_map, comp_beq_tallyBump, hfind]
        rfl
      have hk : ¬ k = k' := by
        intro he
        subst he
        obtain ⟨p, hpmem, hpk⟩ := List.any_eq_true.mp hp
        exact absurd hpk (by simpa using List.find?_eq_none.mp hfind p hpmem)
      rw [tallyGet_of_find?_none hLHS, tallyGet_of_find?_none hfind, if_neg hk]
    | some q =>
      have hq : q.1 = k := by simpa using List.find?_some hfind
      have hLHS : (t.map (tallyBump k' (tallyGet t k' + 1))).find? (fun p => p.1 == k)
          = some (tallyBump k' (tallyGet t k' + 1) q) := by
        rw [List.find?_map, comp_beq_tallyBump, hfind]
        rfl
      rw [tallyGet_of_find?_some hLHS, tallyGet_of_find?_some hfind]
      by_cases hk : k = k'
      · subst hk
        rw [tallyGet_of_find?_some hfind]
        simp [tallyBump, hq]
      · have : ¬ q.1 = k' := by rw [hq]; exact hk
        simp [tallyBump, this, hk]
  · have hp' : t.any (fun p => p.1 == k') = false := Bool.eq_false_iff.mpr hp
    simp only [tallyInsert, hp', if_false, Bool.false_eq_true]
    rw [tallyGet_eq_zero hp']
    cases hfind : t.find? (fun p => p.1 == k) with
    | none =>
      have hLHS : (t ++ [(k', 0 + 1)]).find? (fun p => p.1 == k)
          = [(k', (0 : Nat) + 1)].find? (fun p => p.1 == k) := by
        rw [List.find?_append, hfind]
        rfl
      by_cases hk : k = k'
      · subst hk
        have hone : [((k : String), (0 : Nat) + 1)].find? (fun p => p.1 == k) = some (k, 0 + 1) :=
          List.find?_cons_of_pos _ (by simp)
        rw [tallyGet_of_find?_some (hLHS.trans hone), tallyGet_of_find?_none hfind, if_pos rfl]
      · have hone : [((k' : String), (0 : Nat) + 1)].find? (fun p => p.1 == k) = none := by
          rw [List.find?_cons_of_neg _ (by simpa using fun h : k' = k => hk h.symm),
            List.find?_nil]
        rw [tallyGet_of_find?_none (hLHS.trans hone), tallyGet_of_find?_none hfind, if_neg hk]
    | some q =>
      have hq : q.1 = k := by simpa using List.find?_some hfind
      have hk : ¬ k = k' := by
        intro he
        subst he
        have hmem := List.mem_of_find?_eq_some hfind
        have hnot := List.any_eq_false.mp hp' q hmem
        simp [hq] at hnot
      have hLHS : (t ++ [(k', 0 + 1)]).find? (fun p => p.1 == k) = some q := by
        rw [List.find?_append, hfind]
        rfl
      rw [tallyGet_of_find?_some hLHS, tallyGet_of_find?_some hfind, if_neg hk]
      omega

theorem valueSum_append (t : List (String × Nat)) (x : String × Nat) :
    valueSum (t ++ [x]) = valueSum t + x.2 := by
  simp [valueSum]

theorem valueSum_cons (x : String × Nat) (t : List (String × Nat)) :
    valueSum (x :: t) = x.2 + valueSum t := by
  simp [valueSum]

theorem sum_map_tallyBump (k : String) (v : Nat) :
    ∀ t : List (String × Nat), KeysNodup t → t.any (fun p => p.1 == k) = true →
      valueSum (t.map (tallyBump k v)) + tallyGet t k = valueSum t + v
  | [], _, hp => by simp at hp
  | p :: t', h, hp => by
    have hsplit : p.1 ∉ t'.map Prod.fst ∧ KeysNodup t' := by
      simpa only [KeysNodup, List.map_cons, List.nodup_cons] using h
    by_cases hpk : (p.1 == k) = true
    · have hpk' : p.1 = k := by simpa using hpk
      have hbump : tallyBump k v p = (p.1, v) := by
        unfold tallyBump
        rw [if_pos hpk]
      have hfix : t'.map (tallyBump k v) = t' := by
        conv_rhs => rw [← List.map_id t']
        apply List.map_congr_left
        intro q hq
        have hqk : ¬ (q.1 == k) = true := by
          simp only [beq_iff_eq]
          intro he
          exact hsplit.1 (hpk'.symm ▸ he ▸ List.mem_map_of_mem Prod.fst hq)
        simp [tallyBump, hqk]
      have hget : tallyGet (p :: t') k = p.2 :=
        tallyGet_of_find?_some (List.find?_cons_of_pos _ hpk)
      rw [List.map_cons, hbump, hfix, hget, valueSum_cons, valueSum_cons]
      omega
    · have hbump : tallyBump k v p = p := by
        unfold tallyBump
        rw [if_neg hpk]
      have hany : t'.any (fun p => p.1 == k) = true := by
        rw [List.any_cons] at hp
        rcases Bool.or_eq_true_iff.mp hp with h1 | h1
        · exact absurd h1 hpk
        · exact h1
      have hget : tallyGet (p :: t') k = tallyGet t' k := by
        have hstep : List.find? (fun p => p.1 == k) (p :: t') = List.find? (fun p => p.1 == k) t' :=
          List.find?_cons_of_neg _ hpk
        unfold tallyGet
        rw [hstep]
      have ih := sum_map_tallyBump k v t' hsplit.2 hany
      rw [List.map_cons, hbump, hget, valueSum_cons, valueSum_cons]
      omega

theorem sum_tallyInsert (t : List (String × Nat)) (k : String) (h : KeysNodup t) :
    valueSum (tallyInsert t k (tallyGet t k + 1)) = valueSum t + 1 := by
  by_cases hp : t.any (fun p => p.1 == k) = true
  · simp only [tallyInsert, hp, if_true]
    have := sum_map_tallyBump k (tallyGet t k + 1) t h hp
    omega
  · have hp' : t.any (fun p => p.1 == k) = false := Bool.eq_false_iff.mpr hp
    simp only [tallyInsert, hp', Bool.false_eq_true, if_false]
    rw [valueSum_append, tallyGet_eq_zero hp']

theorem keysNodup_tallyInsert (t : List (String × Nat)) (k : String) (v : Nat)
    (h : KeysNodup t) : KeysNodup (tallyInsert t k v) := by
  by_cases hp : t.any (fun p => p.1 == k) = true
  · simp only [tallyInsert, hp, if_true]
    have hkeys : (t.map (tallyBump k v)).map Prod.fst = t.map Prod.fst := by
      rw [List.map_map]
      apply List.map_congr_left
      intro q _
      exact fst_tallyBump k v q
    unfold KeysNodup
    rw [hkeys]
    exact h
  · have hp' : t.any (fun p => p.1 == k) = false := Bool.eq_false_iff.mpr hp
    simp only [tallyInsert, hp', Bool.false_eq_true, if_false]
    unfold KeysNodup
    rw [List.map_append]
    simp only [List.map_cons, List.map_nil]
    rw [List.nodup_append]
    refine ⟨h, List.nodup_singleton k, ?_⟩
    intro a ha hb
    have hak : a = k := by simpa using hb
    obtain ⟨q, hq, hqa⟩ := List.mem_map.mp ha
    have := List.any_eq_false.mp hp' q hq
    simp [hqa, hak] at this

theorem tallyGet_foldl (k : String) :
    ∀ (rs : List Relation) (t : List (String × Nat)),
      tallyGet (rs.foldl (fun t r => tallyInsert t (relKey r) (tallyGet t (relKey r) + 1)) t) k
        = tallyGet t k + (rs.filter (fun r => relKey r == k)).length
  | [], t => by simp
  | r :: rs, t => by
    rw [List.foldl_cons, tallyGet_foldl k rs, get_tallyInsert]
    by_cases hk : relKey r = k
    · have hb : (relKey r == k) = true := by simpa using hk
      rw [List.filter_cons, if_pos hb]
      simp only [List.length_cons]
      rw [if_pos hk.symm]
      omega
    · have hb : ¬ (relKey r == k) = true := by simpa using hk
      rw [List.filter_cons, if_neg hb]
      rw [if_neg (fun h => hk h.symm)]
      omega

theorem keysNodup_foldl :
    ∀ (rs : List Relation) (t : List (String × Nat)), KeysNodup t →
      KeysNodup (rs.foldl (fun t r => tallyInsert t (relKey r) (tallyGet t (relKey r) + 1)) t)
  | [], _, h => h
  | r :: rs, t, h => by
    rw [List.foldl_cons]
    exact keysNodup_foldl rs _ (keysNodup_tallyInsert t (relKey r) _ h)

theorem valueSum_foldl :
    ∀ (rs : List Relation) (t : List (String × Nat)), KeysNodup t →
      valueSum (rs.foldl (fun t r => tallyInsert t (relKey r) (tallyGet t (relKey r) + 1)) t)
        = valueSum t + rs.length
  | [], _, _ => by simp
  | r :: rs, t, h => by
    rw [List.foldl_cons, valueSum_foldl rs _ (keysNodup_tallyInsert t (relKey r) _ h),
      sum_tallyInsert t (relKey r) h]
    simp only [List.length_cons]
    omega

theorem extract_relation_types_get (rs : List Relation) (k : String) :
    tallyGet (extract_relation_types rs) k = (rs.filter (fun r => relKey r == k)).length := by
  unfold extract_relation_types
  rw [tallyGet_foldl]
  have hnil : tallyGet [] k = 0 := rfl
  omega

theorem extract_relation_types_sum (rs : List Relation) :
    valueSum (extract_relation_types rs) = rs.length := by
  unfold extract_relation_types
  rw [valueSum_foldl rs [] (by simp [KeysNodup])]
  have hnil : valueSum [] = 0 := rfl
  omega

/-- C2 (counterexample): at a single relation record that lacks the
`relationType` key, the tally's value sum is 1 while the number of records
having a `relationType` key is 0, so the claimed equality fails: the code
counts such records under "Unknown" instead of excluding them. -/
theorem C2_counterexample :
    valueSum (extract_relation_types [(⟨none, none, none, none⟩ : Relation)]) ≠
      ([(⟨none, none, none, none⟩ : Relation)].filter
        (fun r => r.relationType.isSome)).length := by
  decide

/-- C2 (amended): the sum of all counts in `extract_relation_types R`
equals the total number of records in R; records lacking `relationType`
are not excluded but tallied under the "Unknown" key. -/
theorem C2_tally_sum_counts_every_record (rs : List Relation) :
    valueSum (extract_relation_types rs) = rs.length ∧
    tallyGet (extract_relation_types rs) "Unknown" =
      (rs.filter (fun r => relKey r == "Unknown")).length :=
  ⟨extract_relation_types_sum rs, extract_relation_types_get rs "Unknown"⟩

theorem extract_nodes_length :
    ∀ (es : List Entity) (g : List String) (ns : List Node),
      extract_nodes es g = some ns →
      ns.length = (es.filter (fun e => e.type == some "entity")).length
  | [], g, ns, h => by
    simp only [extract_nodes, Option.some.injEq] at h
    subst h
    simp
  | e :: es, g, ns, h => by
    simp only [extract_nodes] at h
    by_cases ht : (e.type == some "entity") = true
    · rw [if_pos ht] at h
      cases hn : e.name with
      | none =>
        rw [hn] at h
        cases h
      | some n =>
        rw [hn] at h
        cases hrec : extract_nodes es g with
        | none =>
          rw [hrec] at h
          cases h
        | some ns' =>
          rw [hrec] at h
          cases h
          rw [List.filter_cons, if_pos ht]
          simp only [List.length_cons]
          rw [extract_nodes_length es g ns' hrec]
    · rw [if_neg ht] at h
      rw [List.filter_cons, if_neg ht]
      exact extract_nodes_length es g ns h

theorem extract_links_length :
    ∀ (rs : List Relation) (t : List (String × Nat)) (ls : List Link),
      extract_links rs t = some ls →
      ls.length = (rs.filter (fun r => r.type == some "relation")).length
  | [], t, ls, h => by
    simp only [extract_links, Option.some.injEq] at h
    subst h
    simp
  | r :: rs, t, ls, h => by
    simp only [extract_links] at h
    by_cases ht : (r.type == some "relation") = true
    · rw [if_pos ht] at h
      cases hf : r.from_ with
      | none =>
        rw [hf] at h
        cases h
      | some s =>
        cases hto : r.to_ with
        | none =>
          rw [hf, hto] at h
          cases h
        | some tg =>
          cases hrt : r.relationType with
          | none =>
            rw [hf, hto, hrt] at h
            cases h
          | some ty =>
            rw [hf, hto, hrt] at h
            cases hrec : extract_links rs t with
            | none =>
              rw [hrec] at h
              cases h
            | some ls' =>
              rw [hrec] at h
              cases h
              rw [List.filter_cons, if_pos ht]
              simp only [List.length_cons]
              rw [extract_links_length rs t ls' hrec]
    · rw [if_neg ht] at h
      rw [List.filter_cons, if_neg ht]
      exact extract_links_length rs t ls h

theorem extract_nodes_eq_none_iff :
    ∀ (es : List Entity) (g : List String),
      extract_nodes es g = none ↔ ∃ e ∈ es, e.type = some "entity" ∧ e.name = none
  | [], g => by simp [extract_nodes]
  | e :: es, g => by
    simp only [extract_nodes]
    by_cases ht : (e.type == some "entity") = true
    · have ht' : e.type = some "entity" := by simpa using ht
      rw [if_pos ht]
      cases hn : e.name with
      | none =>
        simp only [List.mem_cons]
        constructor
        · intro _
          exact ⟨e, Or.inl rfl, ht', hn⟩
        · intro _
          trivial
      | some n =>
        cases hrec : extract_nodes es g with
        | none =>
          simp only [List.mem_cons]
          constructor
          · intro _
            obtain ⟨x, hx, hxt, hxn⟩ := (extract_nodes_eq_none_iff es g).mp hrec
            exact ⟨x, Or.inr hx, hxt, hxn⟩
          · intro _
            trivial
        | some ns =>
          simp only [List.mem_cons]
          constructor
          · intro hcontra
            cases hcontra
          · rintro ⟨x, hx | hx, hxt, hxn⟩
            · subst hx
              rw [hn] at hxn
              cases hxn
            · exact absurd hrec ((extract_nodes_eq_none_iff es g).mpr ⟨x, hx, hxt, hxn⟩ ▸
                fun hc => Option.noConfusion hc)
    · have ht' : ¬ e.type = some "entity" := fun hc => ht (by simpa using hc)
      rw [if_neg ht]
      rw [extract_nodes_eq_none_iff es g]
      simp only [List.mem_cons]
      constructor
      · rintro ⟨x, hx, hxt, hxn⟩
        exact ⟨x, Or.inr hx, hxt, hxn⟩
      · rintro ⟨x, hx | hx, hxt, hxn⟩
        · subst hx
          exact absurd hxt ht'
        · exact ⟨x, hx, hxt, hxn⟩

theorem extract_links_eq_none_iff :
    ∀ (rs : List Relation) (t : List (String × Nat)),
      extract_links rs t = none ↔
        ∃ r ∈ rs, r.type = some "relation" ∧
          (r.from_ = none ∨ r.to_ = none ∨ r.relationType = none)
  | [], t => by simp [extract_links]
  | r :: rs, t => by
    simp only [extract_links]
    by_cases ht : (r.type == some "relation") = true
    · have ht' : r.type = some "relation" := by simpa using ht
      rw [if_pos ht]
      cases hf : r.from_ with
      | none =>
        simp only [List.mem_cons]
        constructor
        · intro _
          exact ⟨r, Or.inl rfl, ht', Or.inl hf⟩
        · intro _
          trivial
      | some s =>
        cases hto : r.to_ with
        | none =>
          simp only [List.mem_cons]
          constructor
          · intro _
            exact ⟨r, Or.inl rfl, ht', Or.inr (Or.inl hto)⟩
          · intro _
            trivial
        | some tg =>
          cases hrt : r.relationType with
          | none =>
            simp only [List.mem_cons]
            constructor
            · intro _
              exact ⟨r, Or.inl rfl, ht', Or.inr (Or.inr hrt)⟩
            · intro _
              trivial
          | some ty =>
            cases hrec : extract_links rs t with
            | none =>
              simp only [List.mem_cons]
              constructor
              · intro _
                obtain ⟨x, hx, hxt, hxk⟩ := (extract_links_eq_none_iff rs t).mp hrec
                exact ⟨x, Or.inr hx, hxt, hxk⟩
              · intro _
                trivial
            | some ls =>
              simp only [List.mem_cons]
              constructor
              · intro hcontra
                cases hcontra
              · rintro ⟨x, hx | hx, hxt, hxk⟩
                · subst hx
                  rcases hxk with hc | hc | hc
                  · rw [hf] at hc
                    cases hc
                  · rw [hto] at hc
                    cases hc
                  · rw [hrt] at hc
                    cases hc
                · exact absurd hrec
                    ((extract_links_eq_none_iff rs t).mpr ⟨x, hx, hxt, hxk⟩ ▸
                      fun hc => Option.noConfusion hc)
    · have ht' : ¬ r.type = some "relation" := fun hc => ht (by simpa using hc)
      rw [if_neg ht]
      rw [extract_links_eq_none_iff rs t]
      simp only [List.mem_cons]
      constructor
      · rintro ⟨x, hx, hxt, hxk⟩
        exact ⟨x, Or.inr hx, hxt, hxk⟩
      · rintro ⟨x, hx | hx, hxt, hxk⟩
        · subst hx
          exact absurd hxt ht'
        · exact ⟨x, hx, hxt, hxk⟩

theorem extract_nodes_mem :
    ∀ (es : List Entity) (g : List String) (ns : List Node),
      extract_nodes es g = some ns →
      ∀ nd ∈ ns, ∃ e ∈ es, e.type = some "entity" ∧ e.name = some nd.id
  | [], g, ns, h => by
    simp only [extract_nodes, Option.some.injEq] at h
    subst h
    intro nd hnd
    cases hnd
  | e :: es, g, ns, h => by
    simp only [extract_nodes] at h
    by_cases ht : (e.type == some "entity") = true
    · have ht' : e.type = some "entity" := by simpa using ht
      rw [if_pos ht] at h
      cases hn : e.name with
      | none =>
        rw [hn] at h
        cases h
      | some n =>
        rw [hn] at h
        cases hrec : extract_nodes es g with
        | none =>
          rw [hrec] at h
          cases h
        | some ns' =>
          rw [hrec] at h
          cases h
          intro nd hnd
          rcases List.mem_cons.mp hnd with hh | hh
          · subst hh
            exact ⟨e, List.mem_cons_self e es, ht', hn⟩
          · obtain ⟨x, hx, hxt, hxn⟩ := extract_nodes_mem es g ns' hrec nd hh
            exact ⟨x, List.mem_cons_of_mem e hx, hxt, hxn⟩
    · rw [if_neg ht] at h
      intro nd hnd
      obtain ⟨x, hx, hxt, hxn⟩ := extract_nodes_mem es g ns h nd hnd
      exact ⟨x, List.mem_cons_of_mem e hx, hxt, hxn⟩

theorem extract_links_mem :
    ∀ (rs : List Relation) (t : List (String × Nat)) (ls : List Link),
      extract_links rs t = some ls →
      ∀ l ∈ ls, ∃ r ∈ rs, r.type = some "relation" ∧
        r.from_ = some l.source ∧ r.to_ = some l.target ∧ r.relationType = some l.type
  | [], t, ls, h => by
    simp only [extract_links, Option.some.injEq] at h
    subst h
    intro l hl
    cases hl
  | r :: rs, t, ls, h => by
    simp only [extract_links] at h
    by_cases ht : (r.type == some "relation") = true
    · have ht' : r.type = some "relation" := by simpa using ht
      rw [if_pos ht] at h
      cases hf : r.from_ with
      | none =>
        rw [hf] at h
        cases h
      | some s =>
        cases hto : r.to_ with
        | none =>
          rw [hf, hto] at h
          cases h
        | some tg =>
          cases hrt : r.relationType with
          | none =>
            rw [hf, hto, hrt] at h
            cases h
          | some ty =>
            rw [hf, hto, hrt] at h
            cases hrec : extract_links rs t with
            | none =>
              rw [hrec] at h
              cases h
            | some ls' =>
              rw [hrec] at h
              cases h
              intro l hl
              rcases List.mem_cons.mp hl with hh | hh
              · subst hh
                exact ⟨r, List.mem_cons_self r rs, ht', hf, hto, hrt⟩
              · obtain ⟨x, hx, hxt, hxk⟩ := extract_links_mem rs t ls' hrec l hh
                exact ⟨x, List.mem_cons_of_mem r hx, hxt, hxk⟩
    · rw [if_neg ht] at h
      intro l hl
      obtain ⟨x, hx, hxt, hxk⟩ := extract_links_mem rs t ls h l hl
      exact ⟨x, List.mem_cons_of_mem r hx, hxt, hxk⟩

/-- C3: on success, `extract_nodes` emits exactly one node per record whose
`type` discriminator is "entity" and ignores all other records, so its
output length equals the count of entity-discriminated records; likewise
`extract_links` emits exactly one link per relation-discriminated record. -/
theorem C3_extraction_lengths :
    (∀ (es : List Entity) (g : List String) (ns : List Node),
        extract_nodes es g = some ns →
        ns.length = (es.filter (fun e => e.type == some "entity")).length) ∧
    (∀ (rs : List Relation) (t : List (String × Nat)) (ls : List Link),
        extract_links rs t = some ls →
        ls.length = (rs.filter (fun r => r.type == some "relation")).length) :=
  ⟨extract_nodes_length, extract_links_length⟩

/-- Witness for C3 at concrete mixed inputs: one entity record plus one
skipped record, one relation record plus one skipped record. -/
theorem C3_witness :
    ([({ id := "A", type := "Person", observations := [], group := 0 } : Node)]).length
      = (([⟨some "entity", some "A", some "Person", none⟩,
           ⟨some "comment", none, none, none⟩] : List Entity).filter
          (fun e => e.type == some "entity")).length ∧
    ([({ source := "A", target := "B", type := "knows", value := 1 } : Link)]).length
      = (([⟨some "relation", some "A", some "B", some "knows"⟩,
           ⟨none, none, none, none⟩] : List Relation).filter
          (fun r => r.type == some "relation")).length :=
  ⟨C3_extraction_lengths.1 _ ["Person"] _ (by decide),
   C3_extraction_lengths.2 _ [("knows", 1)] _ (by decide)⟩

/-- C6: `extract_nodes` fails exactly when some entity-discriminated record
lacks `name`; `extract_links` fails exactly when some relation-discriminated
record lacks `from`, `to` or `relationType`; and every emitted node id and
every emitted link source/target/type comes from a present key of some
matching record, never from a default. -/
theorem C6_missing_keys_are_fatal :
    (∀ (es : List Entity) (g : List String),
        extract_nodes es g = none ↔ ∃ e ∈ es, e.type = some "entity" ∧ e.name = none) ∧
    (∀ (rs : List Relation) (t : List (String × Nat)),
        extract_links rs t = none ↔ ∃ r ∈ rs, r.type = some "relation" ∧
          (r.from_ = none ∨ r.to_ = none ∨ r.relationType = none)) ∧
    (∀ (es : List Entity) (g : List String) (ns : List Node),
        extract_nodes es g = some ns →
        ∀ nd ∈ ns, ∃ e ∈ es, e.type = some "entity" ∧ e.name = some nd.id) ∧
    (∀ (rs : List Relation) (t : List (String × Nat)) (ls : List Link),
        extract_links rs t = some ls →
        ∀ l ∈ ls, ∃ r ∈ rs, r.type = some "relation" ∧
          r.from_ = some l.source ∧ r.to_ = some l.target ∧ r.relationType = some l.type) :=
  ⟨extract_nodes_eq_none_iff, extract_links_eq_none_iff, extract_nodes_mem, extract_links_mem⟩

/-- Witness for C6: a nameless entity record makes extraction fail, and a
successfully extracted node's id originates in its record's `name`. -/
theorem C6_witness :
    extract_nodes [(⟨some "entity", none, none, none⟩ : Entity)] [] = none ∧
    (∃ e ∈ [(⟨some "entity", some "A", some "Person", none⟩ : Entity)],
        e.type = some "entity" ∧
        e.name = some (Node.id { id := "A", type := "Person", observations := [], group := 0 })) :=
  ⟨(C6_missing_keys_are_fatal.1 _ []).mpr ⟨_, List.mem_cons_self _ _, rfl, rfl⟩,
   C6_missing_keys_are_fatal.2.2.1 _ []
     [{ id := "A", type := "Person", observations := [], group := 0 }]
     (by decide) _ (List.mem_cons_self _ _)⟩

theorem groups_two_types :
    extract_groups [⟨some "entity", some "A", some "B", none⟩, ⟨none, none, some "A", none⟩]
      = ["A", "B"] := by
  simp only [extract_groups, entityKey, List.map_cons, List.map_nil, Option.getD_some]
  norm_num [List.dedup_cons_of_not_mem, List.insertionSort, List.orderedInsert,
    String.le_iff_toList_le]
  decide

/-- C9 (implicit): `extract_groups` collects the entityType of every record
of the entities array regardless of its discriminator, and a single
non-entity record with a fresh entityType shifts the group index of an
emitted node (here from 0 to 1). -/
theorem C9_groups_include_nonentity_records :
    (∀ (es : List Entity) (s : String),
        s ∈ extract_groups es ↔ ∃ e ∈ es, entityKey e = s) ∧
    extract_nodes [⟨some "entity", some "A", some "B", none⟩]
        (extract_groups [⟨some "entity", some "A", some "B", none⟩])
      = some [{ id := "A", type := "B", observations := [], group := 0 }] ∧
    extract_nodes [⟨some "entity", some "A", some "B", none⟩, ⟨none, none, some "A", none⟩]
        (extract_groups [⟨some "entity", some "A", some "B", none⟩, ⟨none, none, some "A", none⟩])
      = some [{ id := "A", type := "B", observations := [], group := 1 }] ∧
    (⟨none, none, some "A", none⟩ : Entity).type ≠ some "entity" :=
  ⟨mem_extract_groups, by rfl, by rw [groups_two_types]; decide, by decide⟩

/-- C10 (implicit): the tally counts every record of the relations array
regardless of its discriminator, while `extract_links` emits only
relation-discriminated records, so an emitted link's value can strictly
exceed the number of emitted links sharing its relationType (here 2 > 1). -/
theorem C10_tally_exceeds_emitted_links :
    (∀ (rs : List Relation) (k : String),
        tallyGet (extract_relation_types rs) k
          = (rs.filter (fun r => relKey r == k)).length) ∧
    extract_links
        [⟨some "relation", some "A", some "B", some "knows"⟩, ⟨none, none, none, some "knows"⟩]
        (extract_relation_types
          [⟨some "relation", some "A", some "B", some "knows"⟩,
           ⟨none, none, none, some "knows"⟩])
      = some [{ source := "A", target := "B", type := "knows", value := 2 }] ∧
    ([({ source := "A", target := "B", type := "knows", value := 2 } : Link)].filter
        (fun l => l.type == "knows")).length
      < ({ source := "A", target := "B", type := "knows", value := 2 } : Link).value :=
  ⟨extract_relation_types_get, by decide, by decide⟩

theorem mem_insertAbsent (m : List String) (x s : String) :
    s ∈ insertAbsent m x ↔ s ∈ m ∨ s = x := by
  unfold insertAbsent
  split
  · rename_i hx
    constructor
    · exact Or.inl
    · rintro (h1 | h1)
      · exact h1
      · exact h1 ▸ hx
  · simp

theorem mem_missing_step (ids : List String) (m : List String) (l : Link) (s : String) :
    (s ∈ (let m1 := if l.source ∈ ids then m else insertAbsent m l.source
          if l.target ∈ ids then m1 else insertAbsent m1 l.target))
      ↔ s ∈ m ∨ (s ∉ ids ∧ (l.source = s ∨ l.target = s)) := by
  by_cases hs : l.source ∈ ids <;> by_cases htg : l.target ∈ ids <;>
    simp only [hs, htg, if_true, if_false, mem_insertAbsent] <;>
    constructor <;> intro h
  · exact Or.inl h
  · rcases h with h | ⟨hnid, hh | hh⟩
    · exact h
    · exact absurd (hh ▸ hs) hnid
    · exact absurd (hh ▸ htg) hnid
  · rcases h with h | h
    · exact Or.inl h
    · refine Or.inr ⟨fun hc => absurd (h ▸ hc) htg, Or.inr h.symm⟩
  · rcases h with h | ⟨hnid, hh | hh⟩
    · exact Or.inl h
    · exact absurd (hh ▸ hs) hnid
    · exact Or.inr hh.symm
  · rcases h with h | h
    · exact Or.inl h
    · exact Or.inr ⟨fun hc => absurd (h ▸ hc) hs, Or.inl h.symm⟩
  · rcases h with h | ⟨hnid, hh | hh⟩
    · exact Or.inl h
    · exact Or.inr hh.symm
    · exact absurd (hh ▸ htg) hnid
  · rcases h with (h | h) | h
    · exact Or.inl h
    · exact Or.inr ⟨fun hc => absurd (h ▸ hc) hs, Or.inl h.symm⟩
    · exact Or.inr ⟨fun hc => absurd (h ▸ hc) htg, Or.inr h.symm⟩
  · rcases h with h | ⟨hnid, hh | hh⟩
    · exact Or.inl (Or.inl h)
    · exact Or.inl (Or.inr hh.symm)
    · exact Or.inr hh.symm

theorem mem_missing_foldl (ids : List String) :
    ∀ (ls : List Link) (m : List String) (s : String),
      s ∈ ls.foldl (fun m l =>
          let m1 := if l.source ∈ ids then m else insertAbsent m l.source
          if l.target ∈ ids then m1 else insertAbsent m1 l.target) m
        ↔ s ∈ m ∨ (s ∉ ids ∧ ∃ l ∈ ls, l.source = s ∨ l.target = s)
  | [], m, s => by simp
  | l :: ls, m, s => by
    rw [List.foldl_cons, mem_missing_foldl ids ls _ s, mem_missing_step ids m l s]
    simp only [List.mem_cons]
    constructor
    · rintro ((h | ⟨hnid, h⟩) | ⟨hnid, x, hx, hor⟩)
      · exact Or.inl h
      · exact Or.inr ⟨hnid, l, Or.inl rfl, h⟩
      · exact Or.inr ⟨hnid, x, Or.inr hx, hor⟩
    · rintro (h | ⟨hnid, x, hx | hx, hor⟩)
      · exact Or.inl (Or.inl h)
      · exact Or.inl (Or.inr ⟨hnid, hx ▸ hor⟩)
      · exact Or.inr ⟨hnid, x, hx, hor⟩

theorem mem_missing_nodes (nodes : List Node) (links : List Link) (s : String) :
    s ∈ missing_nodes nodes links ↔
      s ∉ nodes.map Node.id ∧ ∃ l ∈ links, l.source = s ∨ l.target = s := by
  unfold missing_nodes
  rw [mem_missing_foldl]
  simp

theorem validate_eq_true_iff (nodes : List Node) (links : List Link) :
    validate_graph_integrity nodes links = true ↔
      ∀ l ∈ links, l.source ∈ nodes.map Node.id ∧ l.target ∈ nodes.map Node.id := by
  unfold validate_graph_integrity
  rw [List.isEmpty_iff, List.eq_nil_iff_forall_not_mem]
  constructor
  · intro h l hl
    constructor
    · by_contra hs
      exact h l.source ((mem_missing_nodes nodes links l.source).mpr ⟨hs, l, hl, Or.inl rfl⟩)
    · by_contra hs
      exact h l.target ((mem_missing_nodes nodes links l.target).mpr ⟨hs, l, hl, Or.inr rfl⟩)
  · intro h s hmem
    obtain ⟨hnid, l, hl, hor⟩ := (mem_missing_nodes nodes links s).mp hmem
    rcases hor with rfl | rfl
    · exact hnid (h l hl).1
    · exact hnid (h l hl).2

theorem missing_nodes_eq_nil (nodes : List Node) (links : List Link)
    (h : ∀ l ∈ links, l.source ∈ nodes.map Node.id ∧ l.target ∈ nodes.map Node.id) :
    missing_nodes nodes links = [] := by
  have := (validate_eq_true_iff nodes links).mpr h
  unfold validate_graph_integrity at this
  exact List.isEmpty_iff.mp this

/-- C4: `validate_graph_integrity` returns true exactly when every link
endpoint is the id of some node; the collected missing-id set contains
exactly the dangling endpoint values over all links (the loop examines
every link), and is empty whenever nothing dangles. -/
theorem C4_validate_characterization (nodes : List Node) (links : List Link) :
    (validate_graph_integrity nodes links = true ↔
      ∀ l ∈ links, l.source ∈ nodes.map Node.id ∧ l.target ∈ nodes.map Node.id) ∧
    (∀ s : String, s ∈ missing_nodes nodes links ↔
      s ∉ nodes.map Node.id ∧ ∃ l ∈ links, l.source = s ∨ l.target = s) ∧
    ((∀ l ∈ links, l.source ∈ nodes.map Node.id ∧ l.target ∈ nodes.map Node.id) →
      missing_nodes nodes links = []) :=
  ⟨validate_eq_true_iff nodes links, mem_missing_nodes nodes links,
   missing_nodes_eq_nil nodes links⟩

/-- Witness for C4 at a concrete dangling-free graph. -/
theorem C4_witness :
    missing_nodes [{ id := "A", type := "T", observations := [], group := 0 }]
      [{ source := "A", target := "A", type := "knows", value := 1 }] = [] :=
  (C4_validate_characterization _ _).2.2 (by decide)

theorem validSetOrder_setOrd1 : ValidSetOrder setOrd1 :=
  fun xs => ⟨List.nodup_dedup xs, fun _ => List.mem_dedup⟩

theorem validSetOrder_setOrd2 : ValidSetOrder setOrd2 := by
  intro xs
  refine ⟨?_, ?_⟩
  · simpa [setOrd2] using List.nodup_dedup xs
  · intro a
    simp [setOrd2, List.mem_dedup]

/-- C5: when extraction succeeds and some extracted link has a dangling
endpoint, running the pipeline with validation enabled fails with the
integrity error (no output object), while running it with validation
disabled succeeds and the dangling link is present, unchanged, in the
output. -/
theorem C5_dangling_link_behaviour (o : List String → List String) (src : String)
    (c : Content) (es : List Entity) (rs : List Relation)
    (hE : c.entities = some es) (hR : c.relations = some rs)
    (ns : List Node) (ls : List Link)
    (hn : extract_nodes es (extract_groups es) = some ns)
    (hl : extract_links rs (extract_relation_types rs) = some ls)
    (l : Link) (hmem : l ∈ ls)
    (hd : l.source ∉ ns.map Node.id ∨ l.target ∉ ns.map Node.id) :
    convert_pipeline o src c true = .error .integrity ∧
    ∃ g : D3Graph, convert_pipeline o src c false = .ok g ∧ g.links = ls ∧ l ∈ g.links := by
  have hv : validate_graph_integrity ns ls = false := by
    rw [Bool.eq_false_iff]
    intro hvt
    have hboth := (validate_eq_true_iff ns ls).mp hvt l hmem
    rcases hd with hd | hd
    · exact hd hboth.1
    · exact hd hboth.2
  constructor
  · simp only [convert_pipeline, hE, hR, hn, hl, hv]
    rfl
  · refine ⟨⟨ns, ls, ⟨ns.length, ls.length, o (ns.map Node.type), o (ls.map Link.type),
      "2025-01-14", src⟩⟩, ?_, rfl, hmem⟩
    simp only [convert_pipeline, hE, hR, hn, hl]
    rfl

/-- C7: on content with empty entities and relations arrays, the pipeline
succeeds with empty nodes and links, zero counts, empty type lists, and
the validator passes on the empty graph. -/
theorem C7_empty_content (o : List String → List String) (src : String) (v : Bool)
    (ho : ValidSetOrder o) :
    convert_pipeline o src ⟨some [], some []⟩ v
      = .ok ⟨[], [], ⟨0, 0, [], [], "2025-01-14", src⟩⟩ ∧
    validate_graph_integrity [] [] = true := by
  have honil : o [] = [] := by
    rcases ho [] with ⟨_, hmem⟩
    apply List.eq_nil_iff_forall_not_mem.mpr
    intro a ha
    simpa using (hmem a).mp ha
  refine ⟨?_, rfl⟩
  simp only [convert_pipeline]
  cases v <;> simp [extract_nodes, extract_links, validate_graph_integrity,
    missing_nodes, honil]

/-- Witness for C7 with the first-occurrence enumeration order. -/
theorem C7_witness :
    convert_pipeline setOrd1 "kg.json" ⟨some [], some []⟩ true
      = .ok ⟨[], [], ⟨0, 0, [], [], "2025-01-14", "kg.json"⟩⟩ ∧
    validate_graph_integrity [] [] = true :=
  C7_empty_content setOrd1 "kg.json" true validSetOrder_setOrd1

/-- C8 (amended): the pipeline is a pure function of the content, the
validation flag and the set-enumeration orders, so two runs agree on
nodes, links, counts, generatedAt and source, and their metadata type
lists agree up to permutation; only the unspecified `list(set(...))`
enumeration order can differ between independent runs. -/
theorem C8_runs_agree_up_to_set_order
    (o1 o2 : List String → List String) (src : String) (c : Content) (v : Bool)
    (h1 : ValidSetOrder o1) (h2 : ValidSetOrder o2)
    (g1 g2 : D3Graph)
    (e1 : convert_pipeline o1 src c v = .ok g1)
    (e2 : convert_pipeline o2 src c v = .ok g2) :
    g1.nodes = g2.nodes ∧ g1.links = g2.links ∧
    g1.metadata.nodeCount = g2.metadata.nodeCount ∧
    g1.metadata.linkCount = g2.metadata.linkCount ∧
    List.Perm g1.metadata.entityTypes g2.metadata.entityTypes ∧
    List.Perm g1.metadata.relationTypes g2.metadata.relationTypes ∧
    g1.metadata.generatedAt = g2.metadata.generatedAt ∧
    g1.metadata.source = g2.metadata.source := by
  unfold convert_pipeline at e1 e2
  cases hE : c.entities with
  | none =>
    rw [hE] at e1
    simp at e1
  | some es =>
    simp only [hE] at e1 e2
    cases hR : c.relations with
    | none =>
      rw [hR] at e1
      simp at e1
    | some rs =>
      simp only [hR] at e1 e2
      cases hn : extract_nodes es (extract_groups es) with
      | none =>
        rw [hn] at e1
        simp at e1
      | some ns =>
        simp only [hn] at e1 e2
        cases hl : extract_links rs (extract_relation_types rs) with
        | none =>
          rw [hl] at e1
          simp at e1
        | some ls =>
          simp only [hl] at e1 e2
          by_cases hv : (v && !(validate_graph_integrity ns ls)) = true
          · rw [if_pos hv] at e1
            simp at e1
          · rw [if_neg hv] at e1 e2
            cases e1
            cases e2
            refine ⟨rfl, rfl, rfl, rfl, ?_, ?_, rfl, rfl⟩
            · apply (List.perm_ext_iff_of_nodup ((h1 _).1) ((h2 _).1)).mpr
              intro a
              rw [(h1 (ns.map Node.type)).2 a, (h2 (ns.map Node.type)).2 a]
            · apply (List.perm_ext_iff_of_nodup ((h1 _).1) ((h2 _).1)).mpr
              intro a
              rw [(h1 (ls.map Link.type)).2 a, (h2 (ls.map Link.type)).2 a]

/-- Witness for C8's amended statement: two runs with the same valid
enumeration order on empty content, extracting the entityTypes
permutation conjunct. -/
theorem C8_witness :
    List.Perm
      ((⟨[], [], ⟨0, 0, [], [], "2025-01-14", "w.json"⟩⟩ : D3Graph).metadata.entityTypes)
      ((⟨[], [], ⟨0, 0, [], [], "2025-01-14", "w.json"⟩⟩ : D3Graph).metadata.entityTypes) :=
  (C8_runs_agree_up_to_set_order setOrd1 setOrd1 "w.json" ⟨some [], some []⟩ true
    validSetOrder_setOrd1 validSetOrder_setOrd1 _ _ (by rfl) (by rfl)).2.2.2.2.1

/-- Witness for C5: a relation from the nonexistent "Z" fails validation
when enabled and is emitted unchanged when validation is disabled. -/
theorem C5_witness :
    convert_pipeline setOrd1 "kg.json"
        ⟨some [⟨some "entity", some "A", some "T", none⟩],
         some [⟨some "relation", some "Z", some "A", some "knows"⟩]⟩ true
      = .error .integrity ∧
    ∃ g : D3Graph,
      convert_pipeline setOrd1 "kg.json"
          ⟨some [⟨some "entity", some "A", some "T", none⟩],
           some [⟨some "relation", some "Z", some "A", some "knows"⟩]⟩ false
        = .ok g ∧
      g.links = [⟨"Z", "A", "knows", 1⟩] ∧ (⟨"Z", "A", "knows", 1⟩ : Link) ∈ g.links :=
  C5_dangling_link_behaviour setOrd1 "kg.json"
    ⟨some [⟨some "entity", some "A", some "T", none⟩],
     some [⟨some "relation", some "Z", some "A", some "knows"⟩]⟩
    [⟨some "entity", some "A", some "T", none⟩]
    [⟨some "relation", some "Z", some "A", some "knows"⟩]
    rfl rfl
    [{ id := "A", type := "T", observations := [], group := 0 }]
    [{ source := "Z", target := "A", type := "knows", value := 1 }]
    (by decide) (by decide)
    ⟨"Z", "A", "knows", 1⟩ (List.mem_cons_self _ _) (Or.inl (by decide))

theorem groups_sorted_pair :
    extract_groups [⟨some "entity", some "A", some "A", none⟩,
                    ⟨some "entity", some "B", some "B", none⟩] = ["A", "B"] := by
  simp only [extract_groups, entityKey, List.map_cons, List.map_nil, Option.getD_some]
  norm_num [List.dedup_cons_of_not_mem, List.insertionSort, List.orderedInsert,
    String.le_iff_toList_le]
  decide

/-- C8 (counterexample): with two legitimate set-enumeration orders - both
listing exactly the distinct strings, as CPython's hash-seed-dependent set
iteration may - the pipeline produces different output documents for the
same input content, differing in the order of `metadata.entityTypes`; the
claim that two independent runs are always byte-identical is false. -/
theorem C8_counterexample :
    ValidSetOrder setOrd1 ∧ ValidSetOrder setOrd2 ∧
    convert_pipeline setOrd1 "kg.json"
        ⟨some [⟨some "entity", some "A", some "A", none⟩,
               ⟨some "entity", some "B", some "B", none⟩], some []⟩ true
      ≠ convert_pipeline setOrd2 "kg.json"
          ⟨some [⟨some "entity", some "A", some "A", none⟩,
                 ⟨some "entity", some "B", some "B", none⟩], some []⟩ true := by
  refine ⟨validSetOrder_setOrd1, validSetOrder_setOrd2, ?_⟩
  have hn : extract_nodes
      [⟨some "entity", some "A", some "A", none⟩, ⟨some "entity", some "B", some "B", none⟩]
      (extract_groups [⟨some "entity", some "A", some "A", none⟩,
                       ⟨some "entity", some "B", some "B", none⟩])
      = some [{ id := "A", type := "A", observations := [], group := 0 },
              { id := "B", type := "B", observations := [], group := 1 }] := by
    rw [groups_sorted_pair]
    decide
  have hA : convert_pipeline setOrd1 "kg.json"
      ⟨some [⟨some "entity", some "A", some "A", none⟩,
             ⟨some "entity", some "B", some "B", none⟩], some []⟩ true
      = .ok ⟨[{ id := "A", type := "A", observations := [], group := 0 },
              { id := "B", type := "B", observations := [], group := 1 }], [],
             ⟨2, 0, ["A", "B"], [], "2025-01-14", "kg.json"⟩⟩ := by
    simp only [convert_pipeline, hn]
    rfl
  have hB : convert_pipeline setOrd2 "kg.json"
      ⟨some [⟨some "entity", some "A", some "A", none⟩,
             ⟨some "entity", some "B", some "B", none⟩], some []⟩ true
      = .ok ⟨[{ id := "A", type := "A", observations := [], group := 0 },
              { id := "B", type := "B", observations := [], group := 1 }], [],
             ⟨2, 0, ["B", "A"], [], "2025-01-14", "kg.json"⟩⟩ := by
    simp only [convert_pipeline, hn]
    rfl
  rw [hA, hB]
  intro hcontra
  exact absurd (Except.ok.inj hcontra) (by decide)

theorem C1_witness :
    (extract_groups [⟨some "entity", some "A", some "Person", none⟩,
                     ⟨some "entity", some "B", some "Place", none⟩]).Sorted
      (fun a b : String => a ≤ b) ∧
    (extract_groups [⟨some "entity", some "A", some "Person", none⟩,
                     ⟨some "entity", some "B", some "Place", none⟩]).Nodup ∧
    extract_groups [⟨some "entity", some "A", some "Person", none⟩,
                    ⟨some "entity", some "B", some "Place", none⟩] =
      extract_groups [⟨some "entity", some "B", some "Place", none⟩,
                      ⟨some "entity", some "A", some "Person", none⟩] :=
  C1_groups_sorted_nodup_perm_invariant _ _ (by decide)

end KG
